import Mathlib

/-!
Verification of the bank-statement ingestion core: raw text extraction from
document bytes, the block-based statement parser, and the locale-aware
numeric normalizer.  Amounts are modelled as exact rationals; strings are
modelled as lists of characters; every definition is translated from the
source functions (`extractTextFromPDF`, `parseBCAStatement`, `parseAmount`,
`extractTextWithOpenAI`'s length gate and the request handler's length gate).
-/

/-- Characters of a string literal, for concrete test inputs. -/
def str (s : String) : List Char := s.data

/-- ASCII decimal digit test, the `\d` / `[0-9]` character class. -/
def isDigitB (c : Char) : Bool := 48 ≤ c.toNat && c.toNat ≤ 57

/-- Numeric value of an ASCII digit. -/
def digitVal (c : Char) : Nat := c.toNat - 48

/-- ASCII whitespace, the `\s` class restricted to ASCII (space, tab,
line feed, vertical tab, form feed, carriage return). -/
def isWsB (c : Char) : Bool :=
  c = ' ' || c = '\t' || c = '\n' || c = '\r' || c.toNat = 11 || c.toNat = 12

/-- The `\w` word-character class `[A-Za-z0-9_]`. -/
def isWordCharB (c : Char) : Bool :=
  isDigitB c || (65 ≤ c.toNat && c.toNat ≤ 90) || (97 ≤ c.toNat && c.toNat ≤ 122) || c = '_'

/-- ASCII upper-casing, for the case-insensitive regex flags in the source. -/
def toUpperChar (c : Char) : Char :=
  if 97 ≤ c.toNat && c.toNat ≤ 122 then Char.ofNat (c.toNat - 32) else c

/-- Decimal digit character for a value below 10. -/
def digitChar (n : Nat) : Char := Char.ofNat (48 + n)

/-- Fuel-driven decimal printing accumulator. -/
def natDigitsAux : Nat → Nat → List Char → List Char
  | 0, _, acc => acc
  | fuel + 1, n, acc =>
    if n < 10 then digitChar n :: acc
    else natDigitsAux fuel (n / 10) (digitChar (n % 10) :: acc)

/-- Decimal representation of a natural number, JS `String(n)` for naturals. -/
def natToChars (n : Nat) : List Char := natDigitsAux (n + 1) n []

/-- JS `String(n).padStart(2, '0')` for the two-digit day/month fields. -/
def pad2 (n : Nat) : List Char := if n < 10 then '0' :: natToChars n else natToChars n

/-- Value of a digit string read left to right, JS `parseInt` on digits. -/
def digitsToNat (l : List Char) : Nat := l.foldl (fun acc c => 10 * acc + digitVal c) 0

/-- JS `String.prototype.trim`: strip leading and trailing whitespace. -/
def trimChars (cs : List Char) : List Char :=
  ((cs.dropWhile isWsB).reverse.dropWhile isWsB).reverse

/-- JS `text.split(/\n/)`: split on line feeds, keeping empty segments. -/
def splitNl : List Char → List (List Char)
  | [] => [[]]
  | c :: rest =>
    let r := splitNl rest
    if c = '\n' then [] :: r
    else
      match r with
      | [] => [[c]]
      | h :: t => (c :: h) :: t

/-- The parser's line pre-processing: split on line feeds, trim each line,
drop empty lines (`text.split(/\n/).map(l => l.trim()).filter(l => l.length > 0)`). -/
def splitLines (text : List Char) : List (List Char) :=
  ((splitNl text).map trimChars).filter (fun l => !l.isEmpty)

/-- `Array.prototype.join` with one separator character. -/
def joinSep (sep : Char) : List (List Char) → List Char
  | [] => []
  | [l] => l
  | l :: l2 :: ls => l ++ sep :: joinSep sep (l2 :: ls)

/-- `descriptionLines.join('\n')`. -/
def joinNewline (ls : List (List Char)) : List Char := joinSep '\n' ls

/-- `descriptionLines.join(' ')`. -/
def joinSpace (ls : List (List Char)) : List Char := joinSep ' ' ls

/-- JS `parseFloat` on strings over the alphabet of digits, commas and
periods: parse the longest prefix `digits [ '.' digits ]`; `none` models
`NaN` (no digit in the leading numeric prefix).  The decimal value
`intPart.fracPart` is the rational `(intPart * 10 ^ k + fracPart) / 10 ^ k`
where `k` is the number of fraction digits; it is built with `mkRat`. -/
def parseFloatPrefix (cs : List Char) : Option ℚ :=
  let intPart := cs.takeWhile isDigitB
  match cs.dropWhile isDigitB with
  | '.' :: rest2 =>
    let fracPart := rest2.takeWhile isDigitB
    if intPart.isEmpty ∧ fracPart.isEmpty then none
    else some (mkRat (digitsToNat intPart * 10 ^ fracPart.length + digitsToNat fracPart)
      (10 ^ fracPart.length))
  | _ => if intPart.isEmpty then none else some (digitsToNat intPart)

/-- JS `String.prototype.replace` with a plain (non-global) one-character
pattern: replace the first occurrence of `a` by `b`. -/
def replaceFirst (cs : List Char) (a b : Char) : List Char :=
  match cs with
  | [] => []
  | c :: rest => if c = a then b :: rest else c :: replaceFirst rest a b

/-- Character class `[0-9,\.]` of the amount token pattern. -/
def isAmtChar (c : Char) : Bool := isDigitB c || c = ',' || c = '.'

/-- `parseAmount` from the source: clean the token to digits/commas/periods,
disambiguate thousands separators from the decimal point by counting
separators, and read the result as a number (`parseFloat(cleaned) || 0`). -/
def parseAmount (s : List Char) : ℚ :=
  if s.isEmpty then 0
  else
    let cleaned := s.filter isAmtChar
    let dots := cleaned.count '.'
    let commas := cleaned.count ','
    let transformed :=
      if dots > 1 then replaceFirst (cleaned.filter (fun c => c ≠ '.')) ',' '.'
      else if commas > 1 then cleaned.filter (fun c => c ≠ ',')
      else if dots = 1 ∧ commas = 1 then replaceFirst (cleaned.filter (fun c => c ≠ '.')) ',' '.'
      else if commas = 1 ∧ dots = 0 then replaceFirst cleaned ',' '.'
      else cleaned
    match parseFloatPrefix transformed with
    | some q => q
    | none => 0

/-- Accumulator for the global token scan `/([\d,\.]+)/g`: `cur` holds the
characters of the token in progress, reversed. -/
def numTokensAux : List Char → List Char → List (List Char)
  | cur, [] => if cur.isEmpty then [] else [cur.reverse]
  | cur, c :: rest =>
    if isAmtChar c then numTokensAux (c :: cur) rest
    else if cur.isEmpty then numTokensAux [] rest
    else cur.reverse :: numTokensAux [] rest

/-- All maximal runs of digits/commas/periods, in order: the successive
matches of `/([\d,\.]+)/g` over a string. -/
def numTokens (cs : List Char) : List (List Char) := numTokensAux [] cs

/-- Is the next character absent or a non-word character (a `\b` boundary
on the right)? -/
def notWordNext : List Char → Bool
  | [] => true
  | c :: _ => !isWordCharB c

/-- Scan for `/\bCR\b/i`; the first argument records whether the previous
character was a word character. -/
def testCRAux : Bool → List Char → Bool
  | _, [] => false
  | prevWord, c :: rest =>
    (match rest with
     | [] => false
     | r :: rest2 =>
       !prevWord && (c = 'C' || c = 'c') && (r = 'R' || r = 'r') && notWordNext rest2)
    || testCRAux (isWordCharB c) rest

/-- `/\bCR\b/i.test(textForAmounts)`: the token CR occurs as a whole word,
case-insensitively. -/
def testCR (cs : List Char) : Bool := testCRAux false cs

/-- Does the upper-cased haystack start with the (already upper-case)
pattern? -/
def startsWithUpper : List Char → List Char → Bool
  | _, [] => true
  | [], _ :: _ => false
  | h :: hs, p :: ps => (toUpperChar h = p) && startsWithUpper hs ps

/-- Case-insensitive substring containment of an upper-case pattern. -/
def containsUpper : List Char → List Char → Bool
  | [], pat => startsWithUpper [] pat
  | c :: t, pat => startsWithUpper (c :: t) pat || containsUpper t pat

/-- The header/footer rejection test
`/TANGGAL|KETERANGAN|CABANG|MUTASI|SALDO|Halaman|Bersambung/i`. -/
def isNoise (desc : List Char) : Bool :=
  containsUpper desc (str "TANGGAL") || containsUpper desc (str "KETERANGAN") ||
  containsUpper desc (str "CABANG") || containsUpper desc (str "MUTASI") ||
  containsUpper desc (str "SALDO") || containsUpper desc (str "HALAMAN") ||
  containsUpper desc (str "BERSAMBUNG")

/-- Character class `[\w\/]` of the reference pattern. -/
def wordOrSlash (c : Char) : Bool := isWordCharB c || c = '/'

/-- Try to match `/\d{4}\/[\w\/]+/` at the head of the list. -/
def refAt : List Char → Option (List Char)
  | d1 :: d2 :: d3 :: d4 :: s :: rest =>
    if isDigitB d1 && isDigitB d2 && isDigitB d3 && isDigitB d4 && s = '/' then
      let tl := rest.takeWhile wordOrSlash
      if tl.isEmpty then none else some (d1 :: d2 :: d3 :: d4 :: '/' :: tl)
    else none
  | _ => none

/-- Leftmost match of `/\d{4}\/[\w\/]+/`, or the empty string when there is
none (the source initializes `reference = ''`). -/
def findRef : List Char → List Char
  | [] => []
  | c :: rest =>
    match refAt (c :: rest) with
    | some r => r
    | none => findRef rest

/-- The date-line test of the main scan: the line matches
`/^(\d{2})\/(\d{2})$/` and the two-digit day/month pair passes
`1 ≤ day ≤ 31` and `1 ≤ mon ≤ 12`; returns the pair when it does. -/
def parseDateLine (cs : List Char) : Option (Nat × Nat) :=
  match cs with
  | [a, b, s, c, d] =>
    if isDigitB a ∧ isDigitB b ∧ s = '/' ∧ isDigitB c ∧ isDigitB d then
      let day := 10 * digitVal a + digitVal b
      let mon := 10 * digitVal c + digitVal d
      if 1 ≤ day ∧ day ≤ 31 ∧ 1 ≤ mon ∧ mon ≤ 12 then some (day, mon) else none
    else none
  | _ => none

/-- The collect-block inner loop: gather lines into the description buffer
until a valid date line is reached (left unconsumed) or the buffer passes
the safety cap check `descriptionLines.length > 50`, which the source runs
after pushing the line.  The counter is the number of lines already
collected; the result is the collected block and the remaining lines. -/
def collectDescAux : List (List Char) → Nat → List (List Char) × List (List Char)
  | [], _ => ([], [])
  | l :: rest, n =>
    if (parseDateLine l).isSome then ([], l :: rest)
    else if n + 1 > 50 then ([l], rest)
    else
      let p := collectDescAux rest (n + 1)
      (l :: p.1, p.2)

/-- Collect a description block starting with an empty buffer. -/
def collectDesc (lines : List (List Char)) : List (List Char) × List (List Char) :=
  collectDescAux lines 0

/-- One parsed transaction (the `ParsedTransaction` interface). -/
structure ParsedTransaction where
  date : List Char
  description : List Char
  reference : List Char
  branchCode : List Char
  debitAmount : ℚ
  creditAmount : ℚ
  balance : Option ℚ
deriving DecidableEq

/-- The per-block amount extraction: every `/([\d,\.]+)/g` token of the
space-joined block, normalized by `parseAmount`, kept when strictly between
0 and 100000000000. -/
def blockAmounts (ds : List (List Char)) : List ℚ :=
  (((numTokens (joinSpace ds)).map parseAmount).filter
    (fun a => decide (0 < a ∧ a < 100000000000)))

/-- The transaction date string `${year}-${mon}-${day}` with two-digit
padding of month and day. -/
def mkDateString (year day mon : Nat) : List Char :=
  natToChars year ++ '-' :: pad2 mon ++ '-' :: pad2 day

/-- Block validation and emission: reject header/footer noise blocks,
blocks whose trimmed description is shorter than 3 characters, and blocks
with no qualifying amount; otherwise build the transaction exactly as the
source does (first amount, CR polarity, last amount as balance when more
than one, heuristic reference, empty branch code). -/
def mkTransaction (year day mon : Nat) (ds : List (List Char)) : Option ParsedTransaction :=
  let fullDescription := joinNewline ds
  if isNoise fullDescription then none
  else if (trimChars fullDescription).length < 3 then none
  else
    match blockAmounts ds with
    | [] => none
    | amount :: restAmts =>
      let textForAmounts := joinSpace ds
      let isCredit := testCR textForAmounts
      some
        { date := mkDateString year day mon
          description := fullDescription
          reference := findRef textForAmounts
          branchCode := []
          debitAmount := if isCredit then 0 else amount
          creditAmount := if isCredit then amount else 0
          balance :=
            if (amount :: restAmts).length > 1 then (amount :: restAmts).getLast? else none }

/-- The main scan loop, fuelled for structural recursion (the fuel is the
number of lines, which the cursor can never overrun since the collect phase
always advances past the date line). -/
def scanAux (year : Nat) : Nat → List (List Char) → List ParsedTransaction
  | 0, _ => []
  | _ + 1, [] => []
  | fuel + 1, l :: rest =>
    match parseDateLine l with
    | none => scanAux year fuel rest
    | some dm =>
      match mkTransaction year dm.1 dm.2 (collectDesc rest).1 with
      | none => scanAux year fuel (collectDesc rest).2
      | some t => t :: scanAux year fuel (collectDesc rest).2

/-- Walk the whole line sequence, emitting transactions block by block. -/
def scanTransactions (year : Nat) (lines : List (List Char)) : List ParsedTransaction :=
  scanAux year lines.length lines

/-- Match an upper-case pattern case-insensitively as a prefix; return the
remainder of the haystack. -/
def stripCIWord : List Char → List Char → Option (List Char)
  | hay, [] => some hay
  | [], _ :: _ => none
  | h :: hs, p :: ps => if toUpperChar h = p then stripCIWord hs ps else none

/-- Match an upper-case pattern case-insensitively as a prefix; return the
original-case characters consumed together with the remainder. -/
def stripCIWordKeep : List Char → List Char → Option (List Char × List Char)
  | hay, [] => some ([], hay)
  | [], _ :: _ => none
  | h :: hs, p :: ps =>
    if toUpperChar h = p then
      match stripCIWordKeep hs ps with
      | some q => some (h :: q.1, q.2)
      | none => none
    else none

/-- The fixed Indonesian month vocabulary with its `monthMap` numbers. -/
def monthNames : List (List Char × Nat) :=
  [(str "JANUARI", 1), (str "FEBRUARI", 2), (str "MARET", 3), (str "APRIL", 4),
   (str "MEI", 5), (str "JUNI", 6), (str "JULI", 7), (str "AGUSTUS", 8),
   (str "SEPTEMBER", 9), (str "OKTOBER", 10), (str "NOVEMBER", 11), (str "DESEMBER", 12)]

/-- Try each month name as a case-insensitive prefix; return the matched
original-case characters, the month number, and the remainder. -/
def matchMonth : List (List Char × Nat) → List Char → Option (List Char × Nat × List Char)
  | [], _ => none
  | nm :: rest, hay =>
    match stripCIWordKeep hay nm.1 with
    | some q => some (q.1, nm.2, q.2)
    | none => matchMonth rest hay

/-- Character class `[:\s]` of the period pattern separator. -/
def isColonWs (c : Char) : Bool := c = ':' || isWsB c

/-- Try to match
`/PERIODE[:\s]+(JANUARI|...|DESEMBER)[\s]+(\d{4})/i` at the head of the
list.  The character classes of consecutive pieces are disjoint, so the
greedy matching of the source regex is deterministic here.  On success
returns the period label `match[1] + ' ' + match[2]`, the year and the
month number. -/
def matchPeriodAt (cs : List Char) : Option (List Char × Nat × Nat) :=
  match stripCIWord cs (str "PERIODE") with
  | none => none
  | some r1 =>
    let sep := r1.takeWhile isColonWs
    if sep.isEmpty then none
    else
      match matchMonth monthNames (r1.drop sep.length) with
      | none => none
      | some mr =>
        let sep2 := mr.2.2.takeWhile isWsB
        if sep2.isEmpty then none
        else
          match mr.2.2.drop sep2.length with
          | y1 :: y2 :: y3 :: y4 :: _ =>
            if isDigitB y1 && isDigitB y2 && isDigitB y3 && isDigitB y4 then
              some (mr.1 ++ ' ' :: [y1, y2, y3, y4], digitsToNat [y1, y2, y3, y4], mr.2.1)
            else none
          | _ => none

/-- Leftmost match of the period marker regex over the whole text. -/
def findPeriod : List Char → Option (List Char × Nat × Nat)
  | [] => none
  | c :: rest =>
    match matchPeriodAt (c :: rest) with
    | some r => some r
    | none => findPeriod rest

/-- Try to match `/SALDO[\s]+AWAL[:\s]*([\d,\.]+)/i` (or `AKHIR`) at the
head of the list, returning the captured numeric token. -/
def matchSaldoAt (word : List Char) (cs : List Char) : Option (List Char) :=
  match stripCIWord cs (str "SALDO") with
  | none => none
  | some r1 =>
    let sep := r1.takeWhile isWsB
    if sep.isEmpty then none
    else
      match stripCIWord (r1.drop sep.length) word with
      | none => none
      | some r2 =>
        let sep2 := r2.takeWhile isColonWs
        let tok := (r2.drop sep2.length).takeWhile isAmtChar
        if tok.isEmpty then none else some tok

/-- Leftmost match of the opening/closing balance marker regex. -/
def findSaldo (word : List Char) : List Char → Option (List Char)
  | [] => none
  | c :: rest =>
    match matchSaldoAt word (c :: rest) with
    | some r => some r
    | none => findSaldo word rest

/-- Gregorian leap-year rule used by the JS `Date` object. -/
def isLeapYear (y : Nat) : Bool := y % 4 = 0 && (y % 100 ≠ 0 || y % 400 = 0)

/-- `new Date(year, ...)` maps years 0..99 to 1900..1999; the parsed year
feeds the last-day computation through that quirk. -/
def jsDateEffYear (y : Nat) : Nat := if y ≤ 99 then 1900 + y else y

/-- `new Date(year, month, 0).getDate()` for a 1-based month: the number of
days of that month. -/
def daysInMonthJS (year month : Nat) : Nat :=
  if month = 2 then (if isLeapYear (jsDateEffYear year) then 29 else 28)
  else if month = 4 ∨ month = 6 ∨ month = 9 ∨ month = 11 then 30
  else 31

/-- The parse result for one document (the object returned by
`parseBCAStatement`). -/
structure ParsedStatement where
  period : List Char
  startDate : List Char
  endDate : List Char
  openingBalance : ℚ
  closingBalance : ℚ
  totalDebits : ℚ
  totalCredits : ℚ
  transactions : List ParsedTransaction
deriving DecidableEq

/-- `parseBCAStatement` from the source.  The ambient `new Date().getFullYear()`
default is made an explicit `currentYear` parameter; `currency` is passed
through by the caller and unused by the parsing logic, as in the source. -/
def parseBCAStatement (text : List Char) (currency : List Char) (currentYear : Nat) :
    ParsedStatement :=
  let pm := findPeriod text
  let period := match pm with | some r => r.1 | none => []
  let year := match pm with | some r => r.2.1 | none => currentYear
  let month := match pm with | some r => r.2.2 | none => 1
  let openingBalance := match findSaldo (str "AWAL") text with
    | some tok => parseAmount tok
    | none => 0
  let closingBalance := match findSaldo (str "AKHIR") text with
    | some tok => parseAmount tok
    | none => 0
  let startDate := natToChars year ++ '-' :: pad2 month ++ '-' :: str "01"
  let lastDay := daysInMonthJS year month
  let endDate := natToChars year ++ '-' :: pad2 month ++ '-' :: pad2 lastDay
  let lines := splitLines text
  let transactions := scanTransactions year lines
  let totalDebits := transactions.foldl (fun s t => s + t.debitAmount) 0
  let totalCredits := transactions.foldl (fun s t => s + t.creditAmount) 0
  { period := period, startDate := startDate, endDate := endDate,
    openingBalance := openingBalance, closingBalance := closingBalance,
    totalDebits := totalDebits, totalCredits := totalCredits,
    transactions := transactions }

/-- The Unicode replacement character emitted by the permissive UTF-8
decoder for invalid sequences. -/
def replChar : Char := Char.ofNat 0xFFFD

/-- UTF-8 continuation byte test. -/
def isContByte (b : Nat) : Bool := 128 ≤ b && b ≤ 191

/-- `new TextDecoder('utf-8', { fatal: false }).decode`: permissive UTF-8
decoding of the raw document bytes, replacing invalid sequences with the
replacement character and resuming at the offending byte. -/
def utf8Decode : List Nat → List Char
  | [] => []
  | b :: rest =>
    if b < 128 then Char.ofNat b :: utf8Decode rest
    else if 194 ≤ b && b ≤ 223 then
      match rest with
      | [] => [replChar]
      | b2 :: rest2 =>
        if isContByte b2 then Char.ofNat ((b - 192) * 64 + (b2 - 128)) :: utf8Decode rest2
        else replChar :: utf8Decode (b2 :: rest2)
    else if 224 ≤ b && b ≤ 239 then
      match rest with
      | [] => [replChar]
      | b2 :: rest2 =>
        if (if b = 224 then 160 ≤ b2 && b2 ≤ 191
            else if b = 237 then 128 ≤ b2 && b2 ≤ 159
            else isContByte b2) then
          match rest2 with
          | [] => [replChar]
          | b3 :: rest3 =>
            if isContByte b3 then
              Char.ofNat ((b - 224) * 4096 + (b2 - 128) * 64 + (b3 - 128)) :: utf8Decode rest3
            else replChar :: utf8Decode (b3 :: rest3)
        else replChar :: utf8Decode (b2 :: rest2)
    else if 240 ≤ b && b ≤ 244 then
      match rest with
      | [] => [replChar]
      | b2 :: rest2 =>
        if (if b = 240 then 144 ≤ b2 && b2 ≤ 191
            else if b = 244 then 128 ≤ b2 && b2 ≤ 143
            else isContByte b2) then
          match rest2 with
          | [] => [replChar]
          | b3 :: rest3 =>
            if isContByte b3 then
              match rest3 with
              | [] => [replChar]
              | b4 :: rest4 =>
                if isContByte b4 then
                  Char.ofNat ((b - 240) * 262144 + (b2 - 128) * 4096 + (b3 - 128) * 64 + (b4 - 128))
                    :: utf8Decode rest4
                else replChar :: utf8Decode (b4 :: rest4)
            else replChar :: utf8Decode (b3 :: rest3)
        else replChar :: utf8Decode (b2 :: rest2)
    else replChar :: utf8Decode rest

/-- One pass of JS `String.prototype.replace` with a global two-character
pattern: replace every non-overlapping left-to-right occurrence of `a`
followed by `b` with `rep`. -/
def replacePair (a b : Char) (rep : List Char) : List Char → List Char
  | [] => []
  | [c] => [c]
  | c :: d :: rest =>
    if c = a ∧ d = b then rep ++ replacePair a b rep rest
    else c :: replacePair a b rep (d :: rest)

/-- The escape-sequence rewriting applied to each parenthesized text block,
in the source's order: `\n`, `\r`, `\t`, `\\`, `\(`, `\)`. -/
def unescapeParens (cs : List Char) : List Char :=
  replacePair '\\' ')' [')']
    (replacePair '\\' '(' ['(']
      (replacePair '\\' '\\' ['\\']
        (replacePair '\\' 't' [' ']
          (replacePair '\\' 'r' []
            (replacePair '\\' 'n' ['\n'] cs)))))

/-- Fuelled scan for the successive matches of `/\(([^)]+)\)/g`: at a `(`,
the greedy `[^)]+` is the run up to the next `)`, which must be nonempty
and followed by the closing `)`; on failure the scan resumes one character
further, as the regex engine does. -/
def strategyAAux : Nat → List Char → List (List Char)
  | 0, _ => []
  | _ + 1, [] => []
  | fuel + 1, c :: rest =>
    if c = '(' then
      let content := rest.takeWhile (fun x => x ≠ ')')
      if content.isEmpty then strategyAAux fuel rest
      else
        match rest.drop content.length with
        | _ :: after => unescapeParens content :: strategyAAux fuel after
        | [] => strategyAAux fuel rest
    else strategyAAux fuel rest

/-- Strategy A: all parenthesis-delimited literal-string blocks, unescaped,
in order of appearance. -/
def strategyA (cs : List Char) : List (List Char) := strategyAAux cs.length cs

/-- Hexadecimal digit test, the `[0-9A-Fa-f]` class. -/
def isHexDigitB (c : Char) : Bool :=
  isDigitB c || (65 ≤ c.toNat && c.toNat ≤ 70) || (97 ≤ c.toNat && c.toNat ≤ 102)

/-- Value of a hexadecimal digit. -/
def hexVal (c : Char) : Nat :=
  if isDigitB c then c.toNat - 48
  else if 65 ≤ c.toNat && c.toNat ≤ 70 then c.toNat - 55
  else c.toNat - 87

/-- `parseInt(hexStr.substr(i, 2), 16)` over consecutive digit pairs. -/
def hexPairsToBytes : List Char → List Nat
  | h1 :: h2 :: rest => (16 * hexVal h1 + hexVal h2) :: hexPairsToBytes rest
  | _ => []

/-- The byte-to-character loop of Strategy B, mirroring the source's
branch chain: printable ASCII kept verbatim, byte 10 as a line feed,
byte 32 as a space (a branch the first test already covers), all other
bytes discarded. -/
def decodeHexBytes : List Nat → List Char
  | [] => []
  | b :: rest =>
    if 32 ≤ b ∧ b ≤ 126 then Char.ofNat b :: decodeHexBytes rest
    else if b = 10 then '\n' :: decodeHexBytes rest
    else if b = 32 then ' ' :: decodeHexBytes rest
    else decodeHexBytes rest

/-- Fuelled scan for the successive matches of `/<([0-9A-Fa-f]+)>/g`,
decoding each even-length run and keeping the block when its trimmed text
is nonempty (`if (decoded.trim()) parts.push(decoded)`). -/
def strategyBAux : Nat → List Char → List (List Char)
  | 0, _ => []
  | _ + 1, [] => []
  | fuel + 1, c :: rest =>
    if c = '<' then
      let hexRun := rest.takeWhile isHexDigitB
      if hexRun.isEmpty then strategyBAux fuel rest
      else
        match rest.drop hexRun.length with
        | '>' :: after =>
          if hexRun.length % 2 = 0 then
            let decoded := decodeHexBytes (hexPairsToBytes hexRun)
            if (trimChars decoded).isEmpty then strategyBAux fuel after
            else decoded :: strategyBAux fuel after
          else strategyBAux fuel after
        | _ => strategyBAux fuel rest
    else strategyBAux fuel rest

/-- Strategy B: all hex-string blocks, decoded, in order of appearance. -/
def strategyB (cs : List Char) : List (List Char) := strategyBAux cs.length cs

/-- `extractTextFromPDF` from the source: decode the bytes permissively,
collect Strategy A blocks, fall back to Strategy B only when Strategy A
yields zero blocks, and join the collected blocks with line feeds.  The
function is total: zero blocks from both strategies yields the empty
text. -/
def extractTextFromPDF (pdfData : List Nat) : List Char :=
  let raw := utf8Decode pdfData
  let partsA := strategyA raw
  let parts := if partsA.isEmpty then strategyB raw else partsA
  joinNewline parts

/-- The recognition adapter's acceptance gate from `extractTextWithOpenAI`:
`if (!extractedText || extractedText.length < 50) throw ...` — the
transcription is accepted exactly when this is `true`. -/
def openaiMinLengthGate (extractedText : List Char) : Bool :=
  !(extractedText.isEmpty || extractedText.length < 50)

/-- The request handler's post-OCR gate:
`if (text.length < 100) throw ...` — the OCR result survives the upload
pipeline exactly when this is `true`. -/
def handlerOcrLengthGate (text : List Char) : Bool :=
  !(text.length < 100)

/-- The specification's example block, preceded by a `01/01` date line so
the parser enters its collect-block state on it. -/
def exampleBlockText : List Char :=
  str "01/01\n0211/FTSCY/WS95051\nPEMBAYARAN INVOICE\n500.000,00 DB\n10.000.000,00"

/-- A date line followed by sixty description candidate lines, exercising
the collect-block safety cap. -/
def longBlockText : List Char := str "01/01" ++ (List.replicate 60 (str "\n77")).flatten

/-- A one-transaction statement with a CR credit marker. -/
def creditStatementText : List Char := str "05/01\nTRANSFER 150.000,00 CR"

/-- The transaction the parser emits for `creditStatementText` with the
current-year default 2025. -/
def creditTxn : ParsedTransaction :=
  { date := str "2025-01-05", description := str "TRANSFER 150.000,00 CR",
    reference := [], branchCode := [], debitAmount := 0, creditAmount := 150000,
    balance := none }

/-- Bytes of a document carrying parenthesized literal-string blocks. -/
def parensBytes : List Nat := (str "(hi) (yo)").map Char.toNat

/-- Bytes of a document carrying only a hex-string block. -/
def hexBytes : List Nat := (str "<4869>").map Char.toNat

/-! Helper lemmas. -/

theorem collectDescAux_spec (lines : List (List Char)) :
    ∀ n : Nat, n ≤ 50 →
      (collectDescAux lines n).1.length + n ≤ 51 ∧
      lines = (collectDescAux lines n).1 ++ (collectDescAux lines n).2 ∧
      (∀ l ∈ (collectDescAux lines n).1, (parseDateLine l).isSome = false) ∧
      ((collectDescAux lines n).1.length + n ≤ 50 →
        (collectDescAux lines n).2 = [] ∨
        ∃ l rem, (collectDescAux lines n).2 = l :: rem ∧ (parseDateLine l).isSome = true) := by
  induction lines with
  | nil =>
    intro n hn
    simp [collectDescAux]
    omega
  | cons l rest ih =>
    intro n hn
    by_cases hd : (parseDateLine l).isSome
    · simp [collectDescAux, hd]
      omega
    · by_cases hcap : n + 1 > 50
      · have hn50 : n = 50 := by omega
        subst hn50
        simp only [collectDescAux, hd, if_neg, if_pos hcap, Bool.false_eq_true, if_false]
        refine ⟨by simp, by simp, ?_, ?_⟩
        · intro x hx
          simp at hx
          subst hx
          simpa using hd
        · intro h
          simp only [List.length_cons, List.length_nil] at h
          omega
      · have ihh := ih (n + 1) (by omega)
        simp only [collectDescAux, hd, Bool.false_eq_true, if_false, if_neg hcap]
        refine ⟨?_, ?_, ?_, ?_⟩
        · simp only [List.length_cons]
          omega
        · simp only [List.cons_append]
          exact congrArg (l :: ·) ihh.2.1
        · intro x hx
          rcases List.mem_cons.mp hx with rfl | hx2
          · simpa using hd
          · exact ihh.2.2.1 x hx2
        · intro hlen
          exact ihh.2.2.2 (by simp at hlen; omega)

theorem blockAmounts_mem_pos (ds : List (List Char)) (v : ℚ) (h : v ∈ blockAmounts ds) :
    0 < v ∧ v < 100000000000 := by
  unfold blockAmounts at h
  have hp := List.of_mem_filter h
  exact of_decide_eq_true hp

theorem mkTransaction_some_spec (year day mon : Nat) (ds : List (List Char))
    (txn : ParsedTransaction) (h : mkTransaction year day mon ds = some txn) :
    ∃ a rest, blockAmounts ds = a :: rest ∧ 0 < a ∧ a < 100000000000 ∧
      txn.description = joinNewline ds ∧
      txn.reference = findRef (joinSpace ds) ∧
      txn.debitAmount = (if testCR (joinSpace ds) then 0 else a) ∧
      txn.creditAmount = (if testCR (joinSpace ds) then a else 0) ∧
      txn.balance = (if (a :: rest).length > 1 then (a :: rest).getLast? else none) := by
  simp only [mkTransaction] at h
  by_cases hn : isNoise (joinNewline ds) = true
  · rw [if_pos hn] at h
    exact absurd h (by simp)
  · rw [if_neg hn] at h
    by_cases hl : (trimChars (joinNewline ds)).length < 3
    · rw [if_pos hl] at h
      exact absurd h (by simp)
    · rw [if_neg hl] at h
      cases heq : blockAmounts ds with
      | nil =>
        rw [heq] at h
        exact absurd h (by simp)
      | cons a restAmts =>
        rw [heq] at h
        simp only at h
        have htxn := Option.some.inj h
        have hmem : a ∈ blockAmounts ds := by
          rw [heq]
          exact List.mem_cons_self a restAmts
        obtain ⟨hpos, hlt⟩ := blockAmounts_mem_pos ds a hmem
        refine ⟨a, restAmts, rfl, hpos, hlt, ?_, ?_, ?_, ?_, ?_⟩ <;> rw [← htxn]

theorem mem_scanAux (year : Nat) :
    ∀ (fuel : Nat) (lines : List (List Char)) (txn : ParsedTransaction),
      txn ∈ scanAux year fuel lines →
      ∃ day mon ds, mkTransaction year day mon ds = some txn := by
  intro fuel
  induction fuel with
  | zero =>
    intro lines txn h
    simp [scanAux] at h
  | succ fuel ih =>
    intro lines txn h
    match lines with
    | [] => simp [scanAux] at h
    | l :: rest =>
      rw [scanAux] at h
      cases hd : parseDateLine l with
      | none =>
        simp only [hd] at h
        exact ih rest txn h
      | some dm =>
        simp only [hd] at h
        cases hmk : mkTransaction year dm.1 dm.2 (collectDesc rest).1 with
        | none =>
          simp only [hmk] at h
          exact ih _ txn h
        | some t =>
          simp only [hmk] at h
          rcases List.mem_cons.mp h with rfl | h2
          · exact ⟨dm.1, dm.2, (collectDesc rest).1, hmk⟩
          · exact ih _ txn h2

theorem foldl_debit (l : List ParsedTransaction) :
    ∀ init : ℚ,
      l.foldl (fun s t => s + t.debitAmount) init =
        init + (l.map (fun t => t.debitAmount)).sum := by
  induction l with
  | nil => intro init; simp
  | cons t l ih =>
    intro init
    simp [List.foldl_cons, ih, add_assoc]

theorem foldl_credit (l : List ParsedTransaction) :
    ∀ init : ℚ,
      l.foldl (fun s t => s + t.creditAmount) init =
        init + (l.map (fun t => t.creditAmount)).sum := by
  induction l with
  | nil => intro init; simp
  | cons t l ih =>
    intro init
    simp [List.foldl_cons, ih, add_assoc]

theorem takeWhile_app (p : Char → Bool) (d : List Char) (x : Char) (t : List Char)
    (hd : ∀ y ∈ d, p y = true) (hx : p x = false) :
    (d ++ x :: t).takeWhile p = d := by
  induction d with
  | nil => simp [List.takeWhile_cons, hx]
  | cons a d ih =>
    have ha := hd a (by simp)
    simp [List.takeWhile_cons, ha, ih (fun y hy => hd y (by simp [hy]))]

theorem dropWhile_app (p : Char → Bool) (d : List Char) (x : Char) (t : List Char)
    (hd : ∀ y ∈ d, p y = true) (hx : p x = false) :
    (d ++ x :: t).dropWhile p = x :: t := by
  induction d with
  | nil => simp [List.dropWhile_cons, hx]
  | cons a d ih =>
    have ha := hd a (by simp)
    simp [List.dropWhile_cons, ha, ih (fun y hy => hd y (by simp [hy]))]

theorem takeWhile_all (p : Char → Bool) (l : List Char) (h : ∀ y ∈ l, p y = true) :
    l.takeWhile p = l := by
  induction l with
  | nil => simp
  | cons a l ih =>
    have ha := h a (by simp)
    simp [List.takeWhile_cons, ha, ih (fun y hy => h y (by simp [hy]))]

theorem dropWhile_all (p : Char → Bool) (l : List Char) (h : ∀ y ∈ l, p y = true) :
    l.dropWhile p = [] := by
  induction l with
  | nil => simp
  | cons a l ih =>
    have ha := h a (by simp)
    simp [List.dropWhile_cons, ha, ih (fun y hy => h y (by simp [hy]))]

theorem count_zero_digits (l : List Char) (c : Char) (hc : isDigitB c = false)
    (h : ∀ y ∈ l, isDigitB y = true) : l.count c = 0 := by
  rw [List.count_eq_zero]
  intro hmem
  rw [h c hmem] at hc
  exact absurd hc (by simp)

theorem filter_all_true (p : Char → Bool) (l : List Char) (h : ∀ y ∈ l, p y = true) :
    l.filter p = l := by
  induction l with
  | nil => simp
  | cons a l ih =>
    have ha := h a (by simp)
    simp [List.filter_cons, ha, ih (fun y hy => h y (by simp [hy]))]

theorem replaceFirst_no_occ (l t : List Char) (h : ',' ∉ l) :
    replaceFirst (l ++ ',' :: t) ',' '.' = l ++ '.' :: t := by
  induction l with
  | nil => simp [replaceFirst]
  | cons a l ih =>
    have ha : a ≠ ',' := fun hh => h (by simp [hh])
    simp only [List.cons_append, replaceFirst, if_neg ha, List.append_eq]
    rw [ih (fun hm => h (by simp [hm]))]

theorem not_comma_mem_digits (l : List Char) (h : ∀ y ∈ l, isDigitB y = true) : ',' ∉ l := by
  intro hm
  have := h ',' hm
  exact absurd this (by decide)

theorem parseFloatPrefix_digits_dot (d c : List Char)
    (hd : ∀ y ∈ d, isDigitB y = true) (hc : ∀ y ∈ c, isDigitB y = true) :
    parseFloatPrefix (d ++ '.' :: c) =
      if d.isEmpty ∧ c.isEmpty then none
      else some (mkRat (digitsToNat d * 10 ^ c.length + digitsToNat c) (10 ^ c.length)) := by
  unfold parseFloatPrefix
  rw [takeWhile_app isDigitB d '.' c hd (by decide),
    dropWhile_app isDigitB d '.' c hd (by decide)]
  simp only [takeWhile_all isDigitB c hc]

theorem digit_ne (y : Char) (h : isDigitB y = true) (c : Char) (hcn : isDigitB c = false) :
    y ≠ c := by
  intro he
  subst he
  rw [h] at hcn
  exact absurd hcn (by simp)

theorem parseAmount_one_dot_one_comma (s : List Char)
    (hne : s.isEmpty = false)
    (hclean : s.filter isAmtChar = s)
    (hd : s.count '.' = 1) (hc : s.count ',' = 1) :
    parseAmount s =
      match parseFloatPrefix (replaceFirst (s.filter (fun x => x ≠ '.')) ',' '.') with
      | some q => q
      | none => 0 := by
  rw [parseAmount]
  rw [if_neg (by simp [hne])]
  simp only [hclean, hd, hc]
  norm_num

theorem parseAmount_dot_comma (a b c : List Char)
    (ha : ∀ y ∈ a, isDigitB y = true) (hb : ∀ y ∈ b, isDigitB y = true)
    (hc : ∀ y ∈ c, isDigitB y = true) :
    parseAmount (a ++ '.' :: (b ++ ',' :: c)) =
      ((digitsToNat (a ++ b) : ℚ) * 10 ^ c.length + digitsToNat c) / 10 ^ c.length := by
  have hne : (a ++ '.' :: (b ++ ',' :: c)).isEmpty = false := by simp
  have hall : ∀ y ∈ a ++ '.' :: (b ++ ',' :: c), isAmtChar y = true := by
    intro y hy
    rcases List.mem_append.mp hy with hy | hy
    · simp [isAmtChar, ha y hy]
    · rcases List.mem_cons.mp hy with rfl | hy
      · decide
      · rcases List.mem_append.mp hy with hy | hy
        · simp [isAmtChar, hb y hy]
        · rcases List.mem_cons.mp hy with rfl | hy
          · decide
          · simp [isAmtChar, hc y hy]
  have hcd : (a ++ '.' :: (b ++ ',' :: c)).count '.' = 1 := by
    simp [List.count_append, List.count_cons,
      count_zero_digits a '.' (by decide) ha,
      count_zero_digits b '.' (by decide) hb,
      count_zero_digits c '.' (by decide) hc]
  have hcc : (a ++ '.' :: (b ++ ',' :: c)).count ',' = 1 := by
    simp [List.count_append, List.count_cons,
      count_zero_digits a ',' (by decide) ha,
      count_zero_digits b ',' (by decide) hb,
      count_zero_digits c ',' (by decide) hc]
  rw [parseAmount_one_dot_one_comma _ hne (filter_all_true _ _ hall) hcd hcc]
  have hfa : (a ++ '.' :: (b ++ ',' :: c)).filter (fun x => x ≠ '.') = (a ++ b) ++ ',' :: c := by
    have h1 := filter_all_true (fun x => x ≠ '.') a (fun y hy => by
      simp only [ne_eq, decide_eq_true_eq]
      exact digit_ne y (ha y hy) '.' (by decide))
    have h2 := filter_all_true (fun x => x ≠ '.') b (fun y hy => by
      simp only [ne_eq, decide_eq_true_eq]
      exact digit_ne y (hb y hy) '.' (by decide))
    have h3 := filter_all_true (fun x => x ≠ '.') c (fun y hy => by
      simp only [ne_eq, decide_eq_true_eq]
      exact digit_ne y (hc y hy) '.' (by decide))
    simp only [ne_eq, decide_not] at h1 h2 h3
    simp [List.filter_append, List.filter_cons, h1, h2, h3]
  rw [hfa]
  have hab : ∀ y ∈ a ++ b, isDigitB y = true := by
    intro y hy
    rcases List.mem_append.mp hy with hy | hy
    · exact ha y hy
    · exact hb y hy
  rw [replaceFirst_no_occ (a ++ b) c (not_comma_mem_digits _ hab)]
  rw [parseFloatPrefix_digits_dot (a ++ b) c hab hc]
  by_cases hz : (a ++ b).isEmpty = true ∧ c.isEmpty = true
  · rw [if_pos hz]
    have h1 : a ++ b = ([] : List Char) := by simpa using hz.1
    have h2 : c = ([] : List Char) := by simpa using hz.2
    simp [h1, h2, digitsToNat]
  · rw [if_neg hz]
    show mkRat _ _ = _
    rw [Rat.mkRat_eq_div]
    push_cast
    ring

theorem parseAmount_comma_dot (a b c : List Char)
    (ha : ∀ y ∈ a, isDigitB y = true) (hb : ∀ y ∈ b, isDigitB y = true)
    (hc : ∀ y ∈ c, isDigitB y = true) :
    parseAmount (a ++ ',' :: (b ++ '.' :: c)) =
      ((digitsToNat a : ℚ) * 10 ^ (b ++ c).length + digitsToNat (b ++ c)) / 10 ^ (b ++ c).length := by
  have hne : (a ++ ',' :: (b ++ '.' :: c)).isEmpty = false := by simp
  have hall : ∀ y ∈ a ++ ',' :: (b ++ '.' :: c), isAmtChar y = true := by
    intro y hy
    rcases List.mem_append.mp hy with hy | hy
    · simp [isAmtChar, ha y hy]
    · rcases List.mem_cons.mp hy with rfl | hy
      · decide
      · rcases List.mem_append.mp hy with hy | hy
        · simp [isAmtChar, hb y hy]
        · rcases List.mem_cons.mp hy with rfl | hy
          · decide
          · simp [isAmtChar, hc y hy]
  have hcd : (a ++ ',' :: (b ++ '.' :: c)).count '.' = 1 := by
    simp [List.count_append, List.count_cons,
      count_zero_digits a '.' (by decide) ha,
      count_zero_digits b '.' (by decide) hb,
      count_zero_digits c '.' (by decide) hc]
  have hcc : (a ++ ',' :: (b ++ '.' :: c)).count ',' = 1 := by
    simp [List.count_append, List.count_cons,
      count_zero_digits a ',' (by decide) ha,
      count_zero_digits b ',' (by decide) hb,
      count_zero_digits c ',' (by decide) hc]
  rw [parseAmount_one_dot_one_comma _ hne (filter_all_true _ _ hall) hcd hcc]
  have hfa : (a ++ ',' :: (b ++ '.' :: c)).filter (fun x => x ≠ '.') = a ++ ',' :: (b ++ c) := by
    have h1 := filter_all_true (fun x => x ≠ '.') a (fun y hy => by
      simp only [ne_eq, decide_eq_true_eq]
      exact digit_ne y (ha y hy) '.' (by decide))
    have h2 := filter_all_true (fun x => x ≠ '.') b (fun y hy => by
      simp only [ne_eq, decide_eq_true_eq]
      exact digit_ne y (hb y hy) '.' (by decide))
    have h3 := filter_all_true (fun x => x ≠ '.') c (fun y hy => by
      simp only [ne_eq, decide_eq_true_eq]
      exact digit_ne y (hc y hy) '.' (by decide))
    simp only [ne_eq, decide_not] at h1 h2 h3
    simp [List.filter_append, List.filter_cons, h1, h2, h3]
  rw [hfa]
  rw [replaceFirst_no_occ a (b ++ c) (not_comma_mem_digits a ha)]
  have hbc : ∀ y ∈ b ++ c, isDigitB y = true := by
    intro y hy
    rcases List.mem_append.mp hy with hy | hy
    · exact hb y hy
    · exact hc y hy
  rw [parseFloatPrefix_digits_dot a (b ++ c) ha hbc]
  by_cases hz : a.isEmpty = true ∧ (b ++ c).isEmpty = true
  · rw [if_pos hz]
    have h1 : a = ([] : List Char) := by simpa using hz.1
    have h2 : b ++ c = ([] : List Char) := by simpa using hz.2
    simp [h1, h2, digitsToNat]
  · rw [if_neg hz]
    show mkRat _ _ = _
    rw [Rat.mkRat_eq_div]
    push_cast
    ring

/-! Claim theorems. -/

/-- C1 counterexample: on the block whose collected lines are exactly
`["0211/FTSCY/WS95051", "PEMBAYARAN INVOICE", "500.000,00 DB",
"10.000.000,00"]` the parser's debit amount is 211 — the leading `0211` of
the reference line is the first qualifying numeric token — and not 500000
as the claim states. -/
theorem exampleBlock_debit_not_500000 :
    (parseBCAStatement exampleBlockText [] 2025).transactions.map
      (fun t => t.debitAmount) = [211] ∧ (211 : ℚ) ≠ 500000 := by
  constructor
  · decide
  · decide

set_option maxRecDepth 8000 in
set_option maxHeartbeats 1000000 in
/-- C1 (amended): for a block whose collected lines are exactly
`["0211/FTSCY/WS95051", "PEMBAYARAN INVOICE", "500.000,00 DB",
"10.000.000,00"]`, the parser emits one transaction whose description
contains all four lines joined by line breaks, whose debit amount equals
211 (the normalization of the first qualifying numeric token, the leading
`0211` of the reference), whose balance equals 10000000.00, and whose
reference equals `0211/FTSCY/WS95051`. -/
theorem exampleBlock_parse_result :
    (parseBCAStatement exampleBlockText [] 2025).transactions =
      [{ date := str "2025-01-01",
         description :=
           str "0211/FTSCY/WS95051\nPEMBAYARAN INVOICE\n500.000,00 DB\n10.000.000,00",
         reference := str "0211/FTSCY/WS95051",
         branchCode := [],
         debitAmount := 211,
         creditAmount := 0,
         balance := some 10000000 }] := by
  decide

set_option maxRecDepth 8000 in
set_option maxHeartbeats 1000000 in
/-- C2 counterexample: the collect-block loop gathers 51 lines, not at
most 50 — on sixty candidate lines the description buffer holds 51 lines,
and the emitted transaction's description contains 50 line breaks, hence
51 collected lines. -/
theorem collect_block_51_lines :
    (collectDesc (List.replicate 60 (str "77"))).1.length = 51 ∧
    (parseBCAStatement longBlockText [] 2025).transactions.map
      (fun t => t.description.count '\n') = [50] := by
  constructor
  · decide
  · decide

/-- C2 (amended): in the collect-block state the parser collects at most
51 lines into one transaction's description buffer: collection stops
either when a line matching a valid DD/MM pattern is reached (left
unconsumed) or once a 51st line has been collected, because the source
checks the 50-line safety cap only after pushing the current line. -/
theorem collect_block_cap (lines : List (List Char)) :
    (collectDesc lines).1.length ≤ 51 ∧
    lines = (collectDesc lines).1 ++ (collectDesc lines).2 ∧
    (∀ l ∈ (collectDesc lines).1, (parseDateLine l).isSome = false) ∧
    ((collectDesc lines).1.length ≤ 50 →
      (collectDesc lines).2 = [] ∨
      ∃ l rem, (collectDesc lines).2 = l :: rem ∧ (parseDateLine l).isSome = true) := by
  have h := collectDescAux_spec lines 0 (by omega)
  unfold collectDesc
  refine ⟨by omega, h.2.1, h.2.2.1, fun hl => h.2.2.2 (by omega)⟩

/-- Witness for the amended C2 on a concrete line sequence. -/
theorem collect_block_cap_witness :
    (collectDesc [str "05/01"]).2 = [] ∨
    ∃ l rem, (collectDesc [str "05/01"]).2 = l :: rem ∧ (parseDateLine l).isSome = true :=
  (collect_block_cap [str "05/01"]).2.2.2 (by decide)

/-- C3: the numeric normalizer satisfies the disambiguation policy on its
test vectors — `1.234.567,89` and `1,234,567.89` both normalize to
1234567.89, `1.234,00` to 1234, `50,5` to 50.5 and the empty token to 0 —
and for any token of digits containing exactly one period and one comma
(in either order) the period is stripped and the comma becomes the decimal
point: the value is the digits around the comma read as a decimal
number. -/
theorem parseAmount_policy (a b c : List Char)
    (ha : ∀ y ∈ a, isDigitB y = true) (hb : ∀ y ∈ b, isDigitB y = true)
    (hc : ∀ y ∈ c, isDigitB y = true) :
    parseAmount (str "1.234.567,89") = 1234567.89 ∧
    parseAmount (str "1,234,567.89") = 1234567.89 ∧
    parseAmount (str "1.234,00") = 1234 ∧
    parseAmount (str "50,5") = 50.5 ∧
    parseAmount (str "") = 0 ∧
    parseAmount (a ++ '.' :: (b ++ ',' :: c)) =
      ((digitsToNat (a ++ b) : ℚ) * 10 ^ c.length + digitsToNat c) / 10 ^ c.length ∧
    parseAmount (a ++ ',' :: (b ++ '.' :: c)) =
      ((digitsToNat a : ℚ) * 10 ^ (b ++ c).length + digitsToNat (b ++ c)) /
        10 ^ (b ++ c).length := by
  refine ⟨?_, ?_, ?_, ?_, ?_, parseAmount_dot_comma a b c ha hb hc,
    parseAmount_comma_dot a b c ha hb hc⟩
  · have h : parseAmount (str "1.234.567,89") = mkRat 123456789 100 := by decide
    rw [h, Rat.mkRat_eq_div]
    norm_num
  · have h : parseAmount (str "1,234,567.89") = mkRat 123456789 100 := by decide
    rw [h, Rat.mkRat_eq_div]
    norm_num
  · decide
  · have h : parseAmount (str "50,5") = mkRat 101 2 := by decide
    rw [h, Rat.mkRat_eq_div]
    norm_num
  · decide

/-- Witness for C3 at the concrete decomposition `1`, `234`, `00` of the
token `1.234,00`. -/
theorem parseAmount_policy_witness :
    parseAmount (str "1.234,00") = 1234 ∧
    parseAmount (str "1" ++ '.' :: (str "234" ++ ',' :: str "00")) =
      ((digitsToNat (str "1" ++ str "234") : ℚ) * 10 ^ (str "00").length +
        digitsToNat (str "00")) / 10 ^ (str "00").length := by
  have h := parseAmount_policy (str "1") (str "234") (str "00")
    (by decide) (by decide) (by decide)
  exact ⟨h.2.2.1, h.2.2.2.2.2.1⟩

/-- C4: a line is a transaction date boundary exactly when it is a
two-digit/two-digit pair `DD/MM` with day in `[1, 31]` and month in
`[1, 12]`; other two-digit/two-digit lines such as `13/13` and `00/05`
are not, and on a line that is not a valid date the main scan starts no
transaction — it skips the line. -/
theorem dateLine_boundary :
    (∀ s : List Char,
      (parseDateLine s).isSome = true ↔
        ∃ a b c d : Char, s = [a, b, '/', c, d] ∧
          isDigitB a = true ∧ isDigitB b = true ∧ isDigitB c = true ∧ isDigitB d = true ∧
          1 ≤ 10 * digitVal a + digitVal b ∧ 10 * digitVal a + digitVal b ≤ 31 ∧
          1 ≤ 10 * digitVal c + digitVal d ∧ 10 * digitVal c + digitVal d ≤ 12) ∧
    (parseDateLine (str "13/13") = none ∧ parseDateLine (str "00/05") = none) ∧
    (∀ (year : Nat) (l : List Char) (rest : List (List Char)),
      (parseDateLine l).isSome = false →
        scanTransactions year (l :: rest) = scanTransactions year rest) := by
  refine ⟨?_, ⟨by decide, by decide⟩, ?_⟩
  · intro s
    constructor
    · intro h
      match s with
      | [] => simp [parseDateLine] at h
      | [a] => simp [parseDateLine] at h
      | [a, b] => simp [parseDateLine] at h
      | [a, b, c] => simp [parseDateLine] at h
      | [a, b, c, d] => simp [parseDateLine] at h
      | a :: b :: c :: d :: e :: f :: tail => simp [parseDateLine] at h
      | [a, b, sl, c, d] =>
        rw [parseDateLine] at h
        by_cases h1 : isDigitB a = true ∧ isDigitB b = true ∧ sl = '/' ∧
            isDigitB c = true ∧ isDigitB d = true
        · rw [if_pos h1] at h
          by_cases h2 : 1 ≤ 10 * digitVal a + digitVal b ∧ 10 * digitVal a + digitVal b ≤ 31 ∧
              1 ≤ 10 * digitVal c + digitVal d ∧ 10 * digitVal c + digitVal d ≤ 12
          · obtain ⟨ha, hb, hsl, hc, hd⟩ := h1
            subst hsl
            exact ⟨a, b, c, d, rfl, ha, hb, hc, hd, h2.1, h2.2.1, h2.2.2.1, h2.2.2.2⟩
          · rw [if_neg h2] at h
            simp at h
        · rw [if_neg h1] at h
          simp at h
    · rintro ⟨a, b, c, d, rfl, ha, hb, hc, hd, hd1, hd2, hm1, hm2⟩
      rw [parseDateLine]
      rw [if_pos ⟨ha, hb, rfl, hc, hd⟩]
      rw [if_pos ⟨hd1, hd2, hm1, hm2⟩]
      rfl
  · intro year l rest h
    have hn : parseDateLine l = none := by
      cases hq : parseDateLine l with
      | none => rfl
      | some v => rw [hq] at h; simp at h
    show scanAux year (l :: rest).length (l :: rest) = scanAux year rest.length rest
    rw [List.length_cons, scanAux, hn]

/-- Witness for C4: `05/01` is recognized as a boundary, and a non-date
line is skipped by the scan. -/
theorem dateLine_boundary_witness :
    (∃ a b c d : Char, str "05/01" = [a, b, '/', c, d] ∧
      isDigitB a = true ∧ isDigitB b = true ∧ isDigitB c = true ∧ isDigitB d = true ∧
      1 ≤ 10 * digitVal a + digitVal b ∧ 10 * digitVal a + digitVal b ≤ 31 ∧
      1 ≤ 10 * digitVal c + digitVal d ∧ 10 * digitVal c + digitVal d ≤ 12) ∧
    scanTransactions 2025 [str "HEADER"] = scanTransactions 2025 [] :=
  ⟨(dateLine_boundary.1 (str "05/01")).mp (by decide),
   dateLine_boundary.2.2 2025 (str "HEADER") [] (by decide)⟩

/-- C5: every transaction the parser emits comes from a block, is a credit
exactly when the token CR occurs as a whole word (case-insensitively) in
that block's space-joined text, and then its credit amount is strictly
positive with debit amount zero — otherwise its debit amount is strictly
positive with credit amount zero.  In particular exactly one of the two
amounts is nonzero and the amount is strictly positive. -/
theorem transaction_polarity (text cur : List Char) (y : Nat) (txn : ParsedTransaction)
    (h : txn ∈ (parseBCAStatement text cur y).transactions) :
    ∃ year day mon ds, mkTransaction year day mon ds = some txn ∧
      ((testCR (joinSpace ds) = true ∧ 0 < txn.creditAmount ∧ txn.debitAmount = 0) ∨
       (testCR (joinSpace ds) = false ∧ 0 < txn.debitAmount ∧ txn.creditAmount = 0)) := by
  have hmem : ∃ year0, txn ∈ scanTransactions year0 (splitLines text) := by
    cases hp : findPeriod text with
    | none => exact ⟨y, by simpa [parseBCAStatement, hp] using h⟩
    | some r => exact ⟨r.2.1, by simpa [parseBCAStatement, hp] using h⟩
  obtain ⟨year0, hmem⟩ := hmem
  obtain ⟨day, mon, ds, hmk⟩ := mem_scanAux year0 _ _ txn hmem
  obtain ⟨a, rest, heq, hpos, hlt, hdesc, href, hdeb, hcred, hbal⟩ :=
    mkTransaction_some_spec year0 day mon ds txn hmk
  refine ⟨year0, day, mon, ds, hmk, ?_⟩
  cases hcr : testCR (joinSpace ds) with
  | true =>
    left
    rw [hcr] at hdeb hcred
    simp only [if_pos rfl] at hdeb hcred
    exact ⟨rfl, by rw [hcred]; exact hpos, hdeb⟩
  | false =>
    right
    rw [hcr] at hdeb hcred
    simp only [Bool.false_eq_true, if_false] at hdeb hcred
    exact ⟨rfl, by rw [hdeb]; exact hpos, hcred⟩

/-- Witness for C5 on the one-transaction credit statement. -/
theorem transaction_polarity_witness :
    ∃ year day mon ds, mkTransaction year day mon ds = some creditTxn ∧
      ((testCR (joinSpace ds) = true ∧ 0 < creditTxn.creditAmount ∧
          creditTxn.debitAmount = 0) ∨
       (testCR (joinSpace ds) = false ∧ 0 < creditTxn.debitAmount ∧
          creditTxn.creditAmount = 0)) :=
  transaction_polarity creditStatementText [] 2025 creditTxn (by decide)

/-- C6: for every parse result the reported totals are derived from the
transaction list — total debits is the sum of the debit amounts and total
credits the sum of the credit amounts over the transactions. -/
theorem totals_sum (text cur : List Char) (y : Nat) :
    (parseBCAStatement text cur y).totalDebits =
      ((parseBCAStatement text cur y).transactions.map (fun t => t.debitAmount)).sum ∧
    (parseBCAStatement text cur y).totalCredits =
      ((parseBCAStatement text cur y).transactions.map (fun t => t.creditAmount)).sum := by
  constructor
  · show (scanTransactions _ _).foldl (fun s t => s + t.debitAmount) 0 = _
    rw [foldl_debit]
    simp [parseBCAStatement]
  · show (scanTransactions _ _).foldl (fun s t => s + t.creditAmount) 0 = _
    rw [foldl_credit]
    simp [parseBCAStatement]

/-- C7: a normalized token value is kept for a block exactly when it comes
from one of the block's numeric tokens and lies strictly between 0 and
100000000000; a block with no kept value emits no transaction; and when a
transaction is emitted, the first kept value is its amount (the sum of its
debit and credit amounts, one of which is zero) and its balance is the
last kept value when more than one was kept, and absent otherwise. -/
theorem amount_filter_selection (ds : List (List Char)) (year day mon : Nat) (v : ℚ)
    (txn : ParsedTransaction) :
    (v ∈ blockAmounts ds ↔
      ∃ tok, tok ∈ numTokens (joinSpace ds) ∧ parseAmount tok = v ∧
        0 < v ∧ v < 100000000000) ∧
    (blockAmounts ds = [] → mkTransaction year day mon ds = none) ∧
    (mkTransaction year day mon ds = some txn →
      blockAmounts ds ≠ [] ∧
      txn.debitAmount + txn.creditAmount = (blockAmounts ds).headI ∧
      txn.balance =
        (if (blockAmounts ds).length > 1 then (blockAmounts ds).getLast? else none)) := by
  refine ⟨?_, ?_, ?_⟩
  · unfold blockAmounts
    simp only [List.mem_filter, List.mem_map, decide_eq_true_eq]
    constructor
    · rintro ⟨⟨tok, htok, rfl⟩, hp⟩
      exact ⟨tok, htok, rfl, hp⟩
    · rintro ⟨tok, htok, heq, hp⟩
      subst heq
      exact ⟨⟨tok, htok, rfl⟩, hp⟩
  · intro hba
    simp [mkTransaction, hba]
  · intro h
    obtain ⟨a, rest, heq, hpos, hlt, hdesc, href, hdeb, hcred, hbal⟩ :=
      mkTransaction_some_spec year day mon ds txn h
    rw [heq]
    refine ⟨by simp, ?_, hbal⟩
    rw [hdeb, hcred]
    cases hcr : testCR (joinSpace ds) <;> simp [hcr, List.headI]

/-- Witness for C7: a block with no kept value emits no transaction, and
on the concrete credit block the emitted amount is the first kept value. -/
theorem amount_filter_selection_witness :
    mkTransaction 2025 1 1 [str "NOPE"] = none ∧
    creditTxn.debitAmount + creditTxn.creditAmount =
      (blockAmounts [str "TRANSFER 150.000,00 CR"]).headI :=
  ⟨(amount_filter_selection [str "NOPE"] 2025 1 1 0 creditTxn).2.1 (by decide),
   ((amount_filter_selection [str "TRANSFER 150.000,00 CR"] 2025 5 1 0 creditTxn).2.2
     (by decide)).2.1⟩

/-- C8: the raw text extractor is a total function of the input bytes; it
uses Strategy B only when Strategy A yields zero blocks, joins the
collected blocks with line breaks, yields the empty text (rather than an
error) when both strategies yield zero blocks, and its hex byte decoding
keeps printable ASCII bytes (32 to 126) verbatim, maps byte 10 to a line
break and discards every other byte value. -/
theorem extractor_strategies (pdfData : List Nat) :
    (strategyA (utf8Decode pdfData) ≠ [] →
      extractTextFromPDF pdfData = joinNewline (strategyA (utf8Decode pdfData))) ∧
    (strategyA (utf8Decode pdfData) = [] →
      extractTextFromPDF pdfData = joinNewline (strategyB (utf8Decode pdfData))) ∧
    (strategyA (utf8Decode pdfData) = [] ∧ strategyB (utf8Decode pdfData) = [] →
      extractTextFromPDF pdfData = []) ∧
    (∀ bs : List Nat,
      decodeHexBytes bs = bs.filterMap (fun b =>
        if 32 ≤ b ∧ b ≤ 126 then some (Char.ofNat b)
        else if b = 10 then some '\n' else none)) := by
  refine ⟨?_, ?_, ?_, ?_⟩
  · intro h
    simp only [extractTextFromPDF]
    rw [if_neg (by simpa [List.isEmpty_iff] using h)]
  · intro h
    simp only [extractTextFromPDF]
    rw [if_pos (by simpa [List.isEmpty_iff] using h)]
  · rintro ⟨h1, h2⟩
    simp only [extractTextFromPDF]
    rw [if_pos (by simpa [List.isEmpty_iff] using h1), h2]
    rfl
  · intro bs
    induction bs with
    | nil => simp [decodeHexBytes]
    | cons b rest ih =>
      by_cases h1 : 32 ≤ b ∧ b ≤ 126
      · simp [decodeHexBytes, h1, ih]
      · by_cases h2 : b = 10
        · simp [decodeHexBytes, h1, h2, ih]
        · have h3 : ¬b = 32 := fun hb => h1 (by omega)
          simp [decodeHexBytes, h1, h2, h3, ih]

/-- Witness for C8 on concrete parenthesized and hex-string documents. -/
theorem extractor_strategies_witness :
    extractTextFromPDF parensBytes = joinNewline (strategyA (utf8Decode parensBytes)) ∧
    extractTextFromPDF hexBytes = joinNewline (strategyB (utf8Decode hexBytes)) :=
  ⟨(extractor_strategies parensBytes).1 (by decide),
   (extractor_strategies hexBytes).2.1 (by decide)⟩

/-- C9: parsing is deterministic — the result depends only on the text,
the currency and the current-year default, and when the text carries a
period marker the default is unused, so any two invocations agree. -/
theorem parse_deterministic (text cur : List Char) (y1 y2 : Nat)
    (h : y1 = y2 ∨ findPeriod text ≠ none) :
    parseBCAStatement text cur y1 = parseBCAStatement text cur y2 := by
  rcases h with rfl | hp
  · rfl
  · cases hfp : findPeriod text with
    | none => exact absurd hfp hp
    | some r => simp [parseBCAStatement, hfp]

/-- Witness for C9: with a period marker present, the 2000 and 2030
defaults give identical parses. -/
theorem parse_deterministic_witness :
    parseBCAStatement (str "PERIODE JANUARI 2025") [] 2000 =
      parseBCAStatement (str "PERIODE JANUARI 2025") [] 2030 :=
  parse_deterministic (str "PERIODE JANUARI 2025") [] 2000 2030 (Or.inr (by decide))

/-- C10: an OCR transcription of length in `[50, 100)` passes the
recognition adapter's 50-character minimum but fails the upload handler's
100-character check, so the upload is rejected although the adapter
accepted the transcription. -/
theorem ocr_length_gates (text : List Char)
    (h1 : 50 ≤ text.length) (h2 : text.length < 100) :
    openaiMinLengthGate text = true ∧ handlerOcrLengthGate text = false := by
  constructor
  · have hne : text.isEmpty = false := by
      cases text with
      | nil => simp at h1
      | cons c t => rfl
    simp [openaiMinLengthGate, hne]
    omega
  · simp [handlerOcrLengthGate]
    omega

/-- Witness for C10 at a 60-character transcription. -/
theorem ocr_length_gates_witness :
    openaiMinLengthGate (List.replicate 60 'a') = true ∧
    handlerOcrLengthGate (List.replicate 60 'a') = false :=
  ocr_length_gates (List.replicate 60 'a') (by simp) (by simp)
